import Mathlib

/-!
Verification development for the stellar-insights analytics core.

The repository's `src/backend/src/services/mod.rs` only declares the modules
`aggregation`, `analytics`, `contract`, `fee_bump_tracker`, `indexing`,
`liquidity_pool_analyzer` and `snapshot`; the module bodies are not present
under `src/`.  Every component below is therefore modelled from the
specification's description of that module, and each definition's doc
comment records which missing module it models.
-/

namespace StellarInsights

/-- Modelled from the spec: shared ledger-model value types (the module
bodies for the services are missing from `src/`).  An entity key is a tagged
union over account, pool and contract identifiers. -/
inductive EntityKey where
  | account (id : Nat)
  | pool (id : Nat)
  | contract (id : Nat)
deriving DecidableEq

/-- Modelled from the spec: the three operation-effect kinds recognized by
the Liquidity Pool Analyzer (module `liquidity_pool_analyzer` is missing). -/
inductive PoolOpKind where
  | deposit
  | withdraw
  | swap
deriving DecidableEq

/-- Modelled from the spec: an operation effect.  A pool effect carries the
pool id, the effect kind, the post-operation reserve values as reported by
the ledger, and the pool-shares delta; a contract invocation carries the
contract id, an invocation id and an effect summary. -/
inductive OperationEffect where
  | poolOp (poolId : Nat) (kind : PoolOpKind) (reserve1 reserve2 : Int)
      (sharesDelta : Int)
  | contractInvoke (contractId : Nat) (invocationId : Nat) (summary : Int)
deriving DecidableEq

/-- Modelled from the spec: a transaction has an id, the fee paid, an
optional inner-transaction id (present exactly when this is a fee-bump
wrapper) and its operation effects. -/
structure Transaction where
  id : Nat
  fee : Nat
  bumpInner : Option Nat
  effects : List OperationEffect
deriving DecidableEq

/-- Modelled from the spec: an entry change upserts an entity's latest
state value; its implied ledger sequence is the sequence of the closure
that contains it. -/
structure EntryChange where
  key : EntityKey
  value : Int
deriving DecidableEq

/-- Modelled from the spec: a ledger closure has a sequence number, a close
timestamp, an ordered list of transaction results and an ordered list of
entry changes. -/
structure LedgerClosure where
  seq : Nat
  closeTime : Nat
  transactions : List Transaction
  entryChanges : List EntryChange
deriving DecidableEq

/-- Modelled from the spec: the fatal error kinds surfaced by the core
(`ConsistencyWarning` is non-fatal and is emitted as an event, not as an
error). -/
inductive CoreError where
  | outOfOrder
  | invalidPoolTransition
deriving DecidableEq

/-! ## Fee Bump Tracker (models the missing module `fee_bump_tracker`) -/

/-- Modelled from the spec: resolution state of a fee-bump record, a tagged
variant (pending / applied / superseded). -/
inductive ResolutionState where
  | pending
  | applied
  | superseded
deriving DecidableEq

/-- Modelled from the spec: a fee-bump record holds the outer id, the inner
id, the fee paid by the outer transaction and the resolution state. -/
structure FeeBumpRecord where
  outer : Nat
  inner : Nat
  fee : Nat
  state : ResolutionState
deriving DecidableEq

/-- Modelled from the spec: events emitted by the Fee Bump Tracker.  The
fee-tie anomaly is a `consistencyWarning` (recorded, non-fatal). -/
inductive FeeBumpEvent where
  | bumpApplied (outer inner : Nat) (fee : Nat)
  | bumpSuperseded (oldOuter : Nat)
  | consistencyWarning (inner outer : Nat)
deriving DecidableEq

/-- The Fee Bump Tracker's state: its list of fee-bump records. -/
abbrev FeeBumpState := List FeeBumpRecord

/-- Whether a record is the applied record for inner id `i`. -/
def isAppliedFor (i : Nat) (r : FeeBumpRecord) : Bool :=
  r.inner == i && r.state == ResolutionState.applied

/-- Look up the existing applied record for an inner id. -/
def findApplied (i : Nat) (recs : FeeBumpState) : Option FeeBumpRecord :=
  recs.find? (isAppliedFor i)

/-- Mark the applied record for inner id `i` as superseded, leaving every
other record unchanged. -/
def supersedeRecord (i : Nat) (r : FeeBumpRecord) : FeeBumpRecord :=
  if isAppliedFor i r then { r with state := ResolutionState.superseded }
  else r

/-- Modelled from the spec: `observe(Transaction) -> Vec<FeeBumpEvent>` of
the missing module `fee_bump_tracker`.  A non-bump transaction yields no
event and no state change.  A bump transaction looks up the existing
applied record for its inner id: if none exists, a new applied record is
created and `BumpApplied` is emitted; if one exists with a strictly lower
fee it is marked superseded and `BumpSuperseded` then `BumpApplied` are
emitted; if one exists with fee greater than or equal to the new fee a
`ConsistencyWarning` is emitted and state is untouched. -/
def FeeBumpTracker.observe (t : Transaction) (recs : FeeBumpState) :
    List FeeBumpEvent × FeeBumpState :=
  match t.bumpInner with
  | none => ([], recs)
  | some i =>
    match findApplied i recs with
    | none =>
        ([FeeBumpEvent.bumpApplied t.id i t.fee],
         recs ++ [⟨t.id, i, t.fee, ResolutionState.applied⟩])
    | some r0 =>
        if r0.fee < t.fee then
          ([FeeBumpEvent.bumpSuperseded r0.outer,
            FeeBumpEvent.bumpApplied t.id i t.fee],
           recs.map (supersedeRecord i) ++
             [⟨t.id, i, t.fee, ResolutionState.applied⟩])
        else
          ([FeeBumpEvent.consistencyWarning i t.id], recs)

/-- Observe a list of transactions in order, accumulating events. -/
def FeeBumpTracker.observeList (ts : List Transaction) (recs : FeeBumpState) :
    List FeeBumpEvent × FeeBumpState :=
  match ts with
  | [] => ([], recs)
  | t :: rest =>
    let p := FeeBumpTracker.observe t recs
    let q := FeeBumpTracker.observeList rest p.2
    (p.1 ++ q.1, q.2)

/-- Number of records in state applied for a given inner id. -/
def appliedCount (i : Nat) (recs : FeeBumpState) : Nat :=
  (recs.filter (isAppliedFor i)).length

/-! ## Liquidity Pool Analyzer (models the missing module
`liquidity_pool_analyzer`) -/

/-- Modelled from the spec: per-pool state, the two reserve amounts and the
total pool shares.  The reserves are stored as the integers reported by the
ledger; the analyzer validates non-negativity rather than recomputing. -/
structure LiquidityPoolState where
  reserve1 : Int
  reserve2 : Int
  shares : Int
deriving DecidableEq

/-- Modelled from the spec: a pool event records the pool id, the effect
kind, the reserves before and after the transition, and the shares delta. -/
structure PoolEvent where
  poolId : Nat
  kind : PoolOpKind
  reservesBefore : Int × Int
  reservesAfter : Int × Int
  sharesDelta : Int
deriving DecidableEq

/-- The Liquidity Pool Analyzer's state: pool id to pool state. -/
abbrev PoolMap := List (Nat × LiquidityPoolState)

/-- Look up a pool's state by pool id. -/
def lookupPool (p : Nat) (m : PoolMap) : Option LiquidityPoolState :=
  (m.find? fun q => q.1 == p).map Prod.snd

/-- Insert or replace a pool's state. -/
def upsertPool (p : Nat) (st : LiquidityPoolState) : PoolMap → PoolMap
  | [] => [(p, st)]
  | (q, s0) :: rest =>
      if q == p then (q, st) :: rest
      else (q, s0) :: upsertPool p st rest

/-- Modelled from the spec: `observe(OperationEffect) -> Vec<PoolEvent>` of
the missing module `liquidity_pool_analyzer`.  The analyzer validates that
the reported reserves are non-negative and records the transition as a
single atomic state change; it fails with `InvalidPoolTransitionError` when
reported reserves would be negative or when a withdraw/swap references a
pool id no deposit has established.  Contract invocations are not pool
effects and are ignored. -/
def LiquidityPoolAnalyzer.observe (e : OperationEffect) (m : PoolMap) :
    Except CoreError (List PoolEvent × PoolMap) :=
  match e with
  | OperationEffect.contractInvoke _ _ _ => Except.ok ([], m)
  | OperationEffect.poolOp p kind r1 r2 dsh =>
    if r1 < 0 ∨ r2 < 0 then Except.error CoreError.invalidPoolTransition
    else
      match lookupPool p m with
      | some st =>
          Except.ok
            ([⟨p, kind, (st.reserve1, st.reserve2), (r1, r2), dsh⟩],
             upsertPool p ⟨r1, r2, st.shares + dsh⟩ m)
      | none =>
          match kind with
          | PoolOpKind.deposit =>
              Except.ok
                ([⟨p, PoolOpKind.deposit, (0, 0), (r1, r2), dsh⟩],
                 upsertPool p ⟨r1, r2, dsh⟩ m)
          | _ => Except.error CoreError.invalidPoolTransition

/-- Run the analyzer on one effect, keeping the previous state when the
effect is rejected: a rejected transition changes nothing (all-or-nothing
application). -/
def LiquidityPoolAnalyzer.observeKeep (e : OperationEffect) (m : PoolMap) :
    PoolMap × List PoolEvent :=
  match LiquidityPoolAnalyzer.observe e m with
  | Except.ok (evs, m1) => (m1, evs)
  | Except.error _ => (m, [])

/-- Run the analyzer over a list of effects, keeping state unchanged on each
rejected effect and accumulating every emitted event. -/
def LiquidityPoolAnalyzer.observeRun (es : List OperationEffect)
    (m : PoolMap) : PoolMap × List PoolEvent :=
  match es with
  | [] => (m, [])
  | e :: rest =>
    let p := LiquidityPoolAnalyzer.observeKeep e m
    let q := LiquidityPoolAnalyzer.observeRun rest p.1
    (q.1, p.2 ++ q.2)

/-- Fail-stop run over a list of effects, used inside closure processing:
the first rejected effect aborts the closure. -/
def LiquidityPoolAnalyzer.observeSeq (es : List OperationEffect)
    (m : PoolMap) : Except CoreError (List PoolEvent × PoolMap) :=
  match es with
  | [] => Except.ok ([], m)
  | e :: rest =>
    (LiquidityPoolAnalyzer.observe e m).bind fun p =>
      (LiquidityPoolAnalyzer.observeSeq rest p.2).bind fun q =>
        Except.ok (p.1 ++ q.1, q.2)

/-! ## Contract Indexer (models the missing module `contract`) -/

/-- Modelled from the spec: one invocation log entry (invocation id, ledger
sequence, effect summary). -/
structure InvocationEntry where
  invocationId : Nat
  ledgerSeq : Nat
  summary : Int
deriving DecidableEq

/-- Modelled from the spec: a contract record holds the ordered invocation
log and the latest state-diff checksum. -/
structure ContractRecord where
  invocations : List InvocationEntry
  checksum : Int
deriving DecidableEq

/-- Modelled from the spec: a contract event emitted to Aggregation. -/
structure ContractEvent where
  contractId : Nat
  invocationId : Nat
  summary : Int
deriving DecidableEq

/-- The Contract Indexer's state: contract id to contract record. -/
abbrev ContractMap := List (Nat × ContractRecord)

/-- Look up a contract record by contract id. -/
def lookupContract (c : Nat) (m : ContractMap) : Option ContractRecord :=
  (m.find? fun q => q.1 == c).map Prod.snd

/-- Insert or replace a contract record. -/
def upsertContract (c : Nat) (r : ContractRecord) : ContractMap → ContractMap
  | [] => [(c, r)]
  | (q, r0) :: rest =>
      if q == c then (q, r) :: rest
      else (q, r0) :: upsertContract c r rest

/-- Modelled from the spec: `observe(OperationEffect) -> Vec<ContractEvent>`
of the missing module `contract`.  Appends an invocation record and updates
the running checksum of contract state diffs; pool effects are ignored. -/
def ContractIndexer.observe (seq : Nat) (e : OperationEffect)
    (m : ContractMap) : List ContractEvent × ContractMap :=
  match e with
  | OperationEffect.poolOp _ _ _ _ _ => ([], m)
  | OperationEffect.contractInvoke c inv summ =>
    let r0 := (lookupContract c m).getD ⟨[], 0⟩
    ([⟨c, inv, summ⟩],
     upsertContract c ⟨r0.invocations ++ [⟨inv, seq, summ⟩],
       r0.checksum + summ⟩ m)

/-- Observe a list of effects with the Contract Indexer, in order. -/
def ContractIndexer.observeList (seq : Nat) (es : List OperationEffect)
    (m : ContractMap) : List ContractEvent × ContractMap :=
  match es with
  | [] => ([], m)
  | e :: rest =>
    let p := ContractIndexer.observe seq e m
    let q := ContractIndexer.observeList seq rest p.2
    (p.1 ++ q.1, q.2)

/-! ## Indexing (models the missing module `indexing`) -/

/-- Modelled from the spec: an entity's latest known state together with
its history of ledger sequences where it changed. -/
structure EntityState where
  latest : Int
  history : List Nat
deriving DecidableEq

/-- Modelled from the spec: the Indexing component's state, the entity map
plus the last-applied-sequence watermark. -/
structure IndexingState where
  entries : List (EntityKey × EntityState)
  lastApplied : Nat
deriving DecidableEq

/-- Insert or replace an entity's latest state, appending to its history. -/
def upsertEntity (k : EntityKey) (seq : Nat) (v : Int) :
    List (EntityKey × EntityState) → List (EntityKey × EntityState)
  | [] => [(k, ⟨v, [seq]⟩)]
  | (k0, s0) :: rest =>
      if k0 == k then (k0, ⟨v, s0.history ++ [seq]⟩) :: rest
      else (k0, s0) :: upsertEntity k seq v rest

/-- Modelled from the spec: `apply(EntryChange) -> ()` of the missing
module `indexing`.  Upserts the entity's latest state, appends a history
pointer and advances the last-applied-sequence watermark; fails with
`OutOfOrderError` when the change's implied sequence precedes the last
applied sequence. -/
def Indexing.apply (seq : Nat) (c : EntryChange) (st : IndexingState) :
    Except CoreError IndexingState :=
  if seq < st.lastApplied then Except.error CoreError.outOfOrder
  else Except.ok ⟨upsertEntity c.key seq c.value st.entries, seq⟩

/-- Modelled from the spec: `lookup(EntityKey) -> Option<EntityState>` of
the missing module `indexing`. -/
def Indexing.lookup (k : EntityKey) (st : IndexingState) :
    Option EntityState :=
  (st.entries.find? fun p => p.1 == k).map Prod.snd

/-- Apply a closure's entry changes in order, at the closure's sequence. -/
def Indexing.applyList (seq : Nat) (cs : List EntryChange)
    (st : IndexingState) : Except CoreError IndexingState :=
  match cs with
  | [] => Except.ok st
  | c :: rest => (Indexing.apply seq c st).bind (Indexing.applyList seq rest)

/-! ## Aggregation (models the missing modules `aggregation` and
`analytics`) -/

/-- Modelled from the spec: the event kinds folded into rollups, one per
analyzer output. -/
inductive AggKind where
  | deposit
  | withdraw
  | swap
  | feeBump
  | contractCall
deriving DecidableEq

/-- Modelled from the spec: a per-entity event consumed by Aggregation. -/
structure AggEvent where
  key : EntityKey
  kind : AggKind
  amount : Int
deriving DecidableEq

/-- Modelled from the spec: the accumulated metric set of a rollup bucket,
counts per kind together with sum, min and max of the event amounts. -/
structure Metrics where
  depositCount : Nat
  withdrawCount : Nat
  swapCount : Nat
  feeBumpCount : Nat
  contractCount : Nat
  sumAmount : Int
  minAmount : Option Int
  maxAmount : Option Int
deriving DecidableEq

/-- The metrics of an empty bucket. -/
def emptyMetrics : Metrics := ⟨0, 0, 0, 0, 0, 0, none, none⟩

/-- Minimum of two optional amounts, where `none` is the identity. -/
def omin : Option Int → Option Int → Option Int
  | none, b => b
  | some x, none => some x
  | some x, some y => some (min x y)

/-- Maximum of two optional amounts, where `none` is the identity. -/
def omax : Option Int → Option Int → Option Int
  | none, b => b
  | some x, none => some x
  | some x, some y => some (max x y)

/-- Increment the per-kind event count of a metric set. -/
def bumpKindCount (k : AggKind) (m : Metrics) : Metrics :=
  match k with
  | AggKind.deposit => { m with depositCount := m.depositCount + 1 }
  | AggKind.withdraw => { m with withdrawCount := m.withdrawCount + 1 }
  | AggKind.swap => { m with swapCount := m.swapCount + 1 }
  | AggKind.feeBump => { m with feeBumpCount := m.feeBumpCount + 1 }
  | AggKind.contractCall => { m with contractCount := m.contractCount + 1 }

/-- Modelled from the spec: the per-bucket fold of one event into the
bucket's metric set (counts, sums, min/max only). -/
def foldEvent (m : Metrics) (e : AggEvent) : Metrics :=
  let m1 := bumpKindCount e.kind m
  { m1 with
      sumAmount := m.sumAmount + e.amount
      minAmount := omin m.minAmount (some e.amount)
      maxAmount := omax m.maxAmount (some e.amount) }

/-- Fold a list of events into one bucket's metric set, left to right. -/
def foldEventList (l : List AggEvent) (m : Metrics) : Metrics :=
  l.foldl foldEvent m

/-- Pointwise combination of two metric sets: counts and sums add, min and
max combine by min/max. -/
def mergeMetrics (a b : Metrics) : Metrics :=
  ⟨a.depositCount + b.depositCount, a.withdrawCount + b.withdrawCount,
   a.swapCount + b.swapCount, a.feeBumpCount + b.feeBumpCount,
   a.contractCount + b.contractCount, a.sumAmount + b.sumAmount,
   omin a.minAmount b.minAmount, omax a.maxAmount b.maxAmount⟩

/-- The Aggregation component's state: (entity key, time bucket) to the
accumulated metric set. -/
abbrev Rollup := List ((EntityKey × Nat) × Metrics)

/-- Modelled from the spec: `read(entity_key, time_bucket) ->
Option<Metrics>` of the missing module `aggregation`. -/
def Aggregation.read (k : EntityKey) (b : Nat) (r : Rollup) :
    Option Metrics :=
  (r.find? fun q => q.1 == (k, b)).map Prod.snd

/-- Insert or replace one bucket's metric set. -/
def upsertBucket (kb : EntityKey × Nat) (m : Metrics) : Rollup → Rollup
  | [] => [(kb, m)]
  | (kb0, m0) :: rest =>
      if kb0 == kb then (kb0, m) :: rest
      else (kb0, m0) :: upsertBucket kb m rest

/-- Modelled from the spec: `fold(entity_key, time_bucket, event) -> ()` of
the missing module `aggregation`: folds one event into its bucket. -/
def Aggregation.fold (b : Nat) (e : AggEvent) (r : Rollup) : Rollup :=
  let cur := (Aggregation.read e.key b r).getD emptyMetrics
  upsertBucket (e.key, b) (foldEvent cur e) r

/-- Fold a list of events of one closure into the rollups. -/
def Aggregation.foldList (b : Nat) (es : List AggEvent) (r : Rollup) :
    Rollup :=
  es.foldl (fun acc e => Aggregation.fold b e acc) r

/-! ## Core pipeline and Snapshot (models the missing module `snapshot`
and the `process` entry point) -/

/-- Modelled from the spec: the whole core's mutable state, each analyzer's
exclusively-owned state plus the committed-sequence watermark.  The bucket
width is the fixed-width time-bucket configuration option. -/
structure CoreState where
  bucketWidth : Nat
  indexing : IndexingState
  feeBump : FeeBumpState
  pools : PoolMap
  contracts : ContractMap
  rollups : Rollup
  lastSeq : Nat
deriving DecidableEq

/-- An empty core seeded at a starting committed sequence. -/
def emptyCore (width startSeq : Nat) : CoreState :=
  ⟨width, ⟨[], startSeq⟩, [], [], [], [], startSeq⟩

/-- Translate a pool event into the aggregation event it feeds. -/
def poolEventToAgg (e : PoolEvent) : AggEvent :=
  ⟨EntityKey.pool e.poolId,
   match e.kind with
   | PoolOpKind.deposit => AggKind.deposit
   | PoolOpKind.withdraw => AggKind.withdraw
   | PoolOpKind.swap => AggKind.swap,
   e.sharesDelta⟩

/-- Translate a fee-bump event into the aggregation event it feeds. -/
def fbEventToAgg (e : FeeBumpEvent) : AggEvent :=
  match e with
  | FeeBumpEvent.bumpApplied outer _ fee =>
      ⟨EntityKey.account outer, AggKind.feeBump, (fee : Int)⟩
  | FeeBumpEvent.bumpSuperseded oldOuter =>
      ⟨EntityKey.account oldOuter, AggKind.feeBump, 0⟩
  | FeeBumpEvent.consistencyWarning _ outer =>
      ⟨EntityKey.account outer, AggKind.feeBump, 0⟩

/-- Translate a contract event into the aggregation event it feeds. -/
def contractEventToAgg (e : ContractEvent) : AggEvent :=
  ⟨EntityKey.contract e.contractId, AggKind.contractCall, e.summary⟩

/-- Modelled from the spec: `process(LedgerClosure) ->
Result<ProcessingOutcome, CoreError>`, the core's sole mutation entry
point.  A closure whose sequence is not the successor of the committed
watermark (a gap or a regression) fails with `OutOfOrderError` before any
state is touched.  Otherwise Indexing applies the entry changes, the three
analyzers consume the closure's transactions and effects, Aggregation folds
their emitted events into the closure's time bucket, and the watermark
advances. -/
def process (c : LedgerClosure) (s : CoreState) :
    Except CoreError CoreState :=
  if c.seq ≠ s.lastSeq + 1 then Except.error CoreError.outOfOrder
  else
    (Indexing.applyList c.seq c.entryChanges s.indexing).bind fun idx =>
      let fb := FeeBumpTracker.observeList c.transactions s.feeBump
      let effects := (c.transactions.map Transaction.effects).flatten
      (LiquidityPoolAnalyzer.observeSeq effects s.pools).bind fun pl =>
        let ct := ContractIndexer.observeList c.seq effects s.contracts
        let aggEvents :=
          fb.1.map fbEventToAgg ++ pl.1.map poolEventToAgg ++
            ct.1.map contractEventToAgg
        let bucket := c.closeTime / s.bucketWidth
        Except.ok
          { bucketWidth := s.bucketWidth
            indexing := idx
            feeBump := fb.2
            pools := pl.2
            contracts := ct.2
            rollups := Aggregation.foldList bucket aggEvents s.rollups
            lastSeq := c.seq }

/-- Process one closure, keeping the previous state when the closure is
rejected: a failed closure leaves every component's state unchanged. -/
def processKeep (c : LedgerClosure) (s : CoreState) : CoreState :=
  match process c s with
  | Except.ok s1 => s1
  | Except.error _ => s

/-- Process a list of closures in order, failing on the first rejected
closure. -/
def processSeq (cs : List LedgerClosure) (s : CoreState) :
    Except CoreError CoreState :=
  match cs with
  | [] => Except.ok s
  | c :: rest => (process c s).bind (processSeq rest)

/-- Modelled from the spec: a snapshot image records the ledger sequence it
is consistent up to plus every component's serialized state. -/
structure SnapshotImage where
  upTo : Nat
  bucketWidth : Nat
  indexing : IndexingState
  feeBump : FeeBumpState
  pools : PoolMap
  contracts : ContractMap
  rollups : Rollup
deriving DecidableEq

/-- Modelled from the spec: `capture() -> SnapshotImage` of the missing
module `snapshot`.  Capture is deterministic and total: every component's
exclusively-owned state is included, nothing is summarized. -/
def Snapshot.capture (s : CoreState) : SnapshotImage :=
  ⟨s.lastSeq, s.bucketWidth, s.indexing, s.feeBump, s.pools, s.contracts,
   s.rollups⟩

/-- Modelled from the spec: `restore(SnapshotImage) -> ()` of the missing
module `snapshot`.  Restore replaces all state wholesale and sets the
ingestion watermark to the image's recorded sequence. -/
def Snapshot.restore (img : SnapshotImage) : CoreState :=
  ⟨img.bucketWidth, img.indexing, img.feeBump, img.pools, img.contracts,
   img.rollups, img.upTo⟩

/-- Extract the success value of a core run, with a default. -/
def exceptGet (d : CoreState) : Except CoreError CoreState → CoreState
  | Except.ok s => s
  | Except.error _ => d

/-! ## Theorems -/

/-- C8: a non-bump transaction yields no event and no state change; a bump
transaction whose inner id has no existing record creates an applied record
and returns exactly `BumpApplied{outer, inner, fee}`. -/
theorem feeBump_observe_nonbump_and_new :
    (∀ (t : Transaction) (recs : FeeBumpState), t.bumpInner = none →
      FeeBumpTracker.observe t recs = ([], recs)) ∧
    (∀ (t : Transaction) (i : Nat) (recs : FeeBumpState),
      t.bumpInner = some i → (∀ r ∈ recs, r.inner ≠ i) →
      FeeBumpTracker.observe t recs =
        ([FeeBumpEvent.bumpApplied t.id i t.fee],
         recs ++ [⟨t.id, i, t.fee, ResolutionState.applied⟩])) := by
  constructor
  · intro t recs h
    simp [FeeBumpTracker.observe, h]
  · intro t i recs hb hno
    have hfind : findApplied i recs = none := by
      apply List.find?_eq_none.mpr
      intro r hr
      simp [isAppliedFor, hno r hr]
    simp [FeeBumpTracker.observe, hb, hfind]

/-- Concrete instance of the C8 theorem. -/
theorem feeBump_observe_nonbump_and_new_witness :
    FeeBumpTracker.observe ⟨5, 7, none, []⟩ [] = ([], []) ∧
    FeeBumpTracker.observe ⟨6, 20, some 2, []⟩ [] =
      ([FeeBumpEvent.bumpApplied 6 2 20],
       [⟨6, 2, 20, ResolutionState.applied⟩]) :=
  ⟨feeBump_observe_nonbump_and_new.1 ⟨5, 7, none, []⟩ [] rfl,
   feeBump_observe_nonbump_and_new.2 ⟨6, 20, some 2, []⟩ 2 [] rfl
     (by simp)⟩

/-- C7: a bump whose inner id has an existing applied record with fee
greater than or equal to the new fee (including the equal-fee tie) records
a `ConsistencyWarning` event, returns normally (non-fatal) and leaves the
tracker's record state exactly unchanged: the first-applied record wins. -/
theorem feeBump_observe_tie_warning (t : Transaction) (i : Nat)
    (r0 : FeeBumpRecord) (recs : FeeBumpState)
    (hb : t.bumpInner = some i) (hf : findApplied i recs = some r0)
    (hge : t.fee ≤ r0.fee) :
    FeeBumpTracker.observe t recs =
      ([FeeBumpEvent.consistencyWarning i t.id], recs) := by
  simp [FeeBumpTracker.observe, hb, hf, Nat.not_lt.mpr hge]

/-- Concrete instance of the C7 theorem, at an equal-fee tie. -/
theorem feeBump_observe_tie_warning_witness :
    FeeBumpTracker.observe ⟨6, 20, some 2, []⟩
        [⟨1, 2, 20, ResolutionState.applied⟩] =
      ([FeeBumpEvent.consistencyWarning 2 6],
       [⟨1, 2, 20, ResolutionState.applied⟩]) :=
  feeBump_observe_tie_warning ⟨6, 20, some 2, []⟩ 2
    ⟨1, 2, 20, ResolutionState.applied⟩
    [⟨1, 2, 20, ResolutionState.applied⟩] rfl rfl (by decide)

/-- C6: a bump whose inner id has an existing applied record with a
strictly lower fee marks that record superseded, creates the new record as
applied, and returns exactly `BumpSuperseded{old_outer}` followed by
`BumpApplied{new_outer, inner, fee}`, in that order. -/
theorem feeBump_observe_supersede (t : Transaction) (i : Nat)
    (r0 : FeeBumpRecord) (recs : FeeBumpState)
    (hb : t.bumpInner = some i) (hf : findApplied i recs = some r0)
    (hlt : r0.fee < t.fee) :
    FeeBumpTracker.observe t recs =
      ([FeeBumpEvent.bumpSuperseded r0.outer,
        FeeBumpEvent.bumpApplied t.id i t.fee],
       recs.map (supersedeRecord i) ++
         [⟨t.id, i, t.fee, ResolutionState.applied⟩]) ∧
    (⟨r0.outer, r0.inner, r0.fee, ResolutionState.superseded⟩ :
        FeeBumpRecord) ∈ (FeeBumpTracker.observe t recs).2 := by
  have heq : FeeBumpTracker.observe t recs =
      ([FeeBumpEvent.bumpSuperseded r0.outer,
        FeeBumpEvent.bumpApplied t.id i t.fee],
       recs.map (supersedeRecord i) ++
         [⟨t.id, i, t.fee, ResolutionState.applied⟩]) := by
    simp [FeeBumpTracker.observe, hb, hf, hlt]
  refine ⟨heq, ?_⟩
  rw [heq]
  have hr0 : r0 ∈ recs := List.mem_of_find?_eq_some hf
  have hp : isAppliedFor i r0 = true := List.find?_some hf
  have hsup : supersedeRecord i r0 =
      ⟨r0.outer, r0.inner, r0.fee, ResolutionState.superseded⟩ := by
    simp [supersedeRecord, hp]
  apply List.mem_append_left
  rw [← hsup]
  exact List.mem_map_of_mem _ hr0

/-- Concrete instance of the C6 theorem. -/
theorem feeBump_observe_supersede_witness :
    FeeBumpTracker.observe ⟨6, 30, some 2, []⟩
        [⟨1, 2, 20, ResolutionState.applied⟩] =
      ([FeeBumpEvent.bumpSuperseded 1, FeeBumpEvent.bumpApplied 6 2 30],
       [⟨1, 2, 20, ResolutionState.superseded⟩,
        ⟨6, 2, 30, ResolutionState.applied⟩]) ∧
    (⟨1, 2, 20, ResolutionState.superseded⟩ : FeeBumpRecord) ∈
      (FeeBumpTracker.observe ⟨6, 30, some 2, []⟩
        [⟨1, 2, 20, ResolutionState.applied⟩]).2 :=
  feeBump_observe_supersede ⟨6, 30, some 2, []⟩ 2
    ⟨1, 2, 20, ResolutionState.applied⟩
    [⟨1, 2, 20, ResolutionState.applied⟩] rfl rfl (by decide)

/-- C4: a closure whose sequence is not the successor of the committed
watermark (a gap or a regression) is rejected with `OutOfOrderError` and
every component's state is unchanged; `Indexing.apply` likewise fails with
`OutOfOrderError` when the change's implied sequence precedes the last
applied sequence. -/
theorem process_out_of_order :
    (∀ (c : LedgerClosure) (s : CoreState), c.seq ≠ s.lastSeq + 1 →
      process c s = Except.error CoreError.outOfOrder ∧
      processKeep c s = s) ∧
    (∀ (seq : Nat) (ch : EntryChange) (st : IndexingState),
      seq < st.lastApplied →
      Indexing.apply seq ch st = Except.error CoreError.outOfOrder) := by
  constructor
  · intro c s h
    have hp : process c s = Except.error CoreError.outOfOrder := by
      simp [process, h]
    exact ⟨hp, by simp [processKeep, hp]⟩
  · intro seq ch st h
    simp [Indexing.apply, h]

/-- Concrete instance of the C4 theorem: sequence 3 delivered on a
watermark of 1 (a gap), and a regressed entry change. -/
theorem process_out_of_order_witness :
    process ⟨3, 0, [], []⟩ (emptyCore 3600 1) =
        Except.error CoreError.outOfOrder ∧
    processKeep ⟨3, 0, [], []⟩ (emptyCore 3600 1) = emptyCore 3600 1 ∧
    Indexing.apply 1 ⟨EntityKey.account 0, 0⟩ ⟨[], 5⟩ =
      Except.error CoreError.outOfOrder :=
  ⟨(process_out_of_order.1 ⟨3, 0, [], []⟩ (emptyCore 3600 1) (by decide)).1,
   (process_out_of_order.1 ⟨3, 0, [], []⟩ (emptyCore 3600 1) (by decide)).2,
   process_out_of_order.2 1 ⟨EntityKey.account 0, 0⟩ ⟨[], 5⟩ (by decide)⟩

/-- C5: a withdraw or swap referencing a pool id no deposit has
established, or any pool effect whose reported reserves would be negative,
is rejected with `InvalidPoolTransitionError`; the rejection is surfaced as
an error (never clamped) and the whole pool map, hence every other pool, is
unchanged. -/
theorem pool_observe_invalid (p : Nat) (kind : PoolOpKind)
    (r1 r2 dsh : Int) (m : PoolMap)
    (h : (kind ≠ PoolOpKind.deposit ∧ lookupPool p m = none) ∨
      r1 < 0 ∨ r2 < 0) :
    LiquidityPoolAnalyzer.observe
        (OperationEffect.poolOp p kind r1 r2 dsh) m =
      Except.error CoreError.invalidPoolTransition ∧
    (LiquidityPoolAnalyzer.observeKeep
        (OperationEffect.poolOp p kind r1 r2 dsh) m).1 = m := by
  have herr : LiquidityPoolAnalyzer.observe
      (OperationEffect.poolOp p kind r1 r2 dsh) m =
      Except.error CoreError.invalidPoolTransition := by
    by_cases hneg : r1 < 0 ∨ r2 < 0
    · simp [LiquidityPoolAnalyzer.observe, hneg]
    · rcases h with ⟨hk, hl⟩ | hr
      · cases kind with
        | deposit => exact absurd rfl hk
        | withdraw => simp [LiquidityPoolAnalyzer.observe, hneg, hl]
        | swap => simp [LiquidityPoolAnalyzer.observe, hneg, hl]
      · exact absurd hr hneg
  exact ⟨herr, by simp [LiquidityPoolAnalyzer.observeKeep, herr]⟩

/-- Concrete instance of the C5 theorem: a swap on an unknown pool. -/
theorem pool_observe_invalid_witness :
    LiquidityPoolAnalyzer.observe
        (OperationEffect.poolOp 1 PoolOpKind.swap 5 5 0) [] =
      Except.error CoreError.invalidPoolTransition ∧
    (LiquidityPoolAnalyzer.observeKeep
        (OperationEffect.poolOp 1 PoolOpKind.swap 5 5 0) []).1 = [] :=
  pool_observe_invalid 1 PoolOpKind.swap 5 5 0 []
    (Or.inl ⟨by decide, rfl⟩)

/-- The pool-reserve invariant: every tracked pool has two non-negative
reserve amounts. -/
def poolInv (m : PoolMap) : Prop :=
  ∀ pr ∈ m, 0 ≤ pr.2.reserve1 ∧ 0 ≤ pr.2.reserve2

/-- A pool event whose reserves-before and reserves-after are both
non-negative. -/
def poolEventOk (ev : PoolEvent) : Prop :=
  0 ≤ ev.reservesBefore.1 ∧ 0 ≤ ev.reservesBefore.2 ∧
  0 ≤ ev.reservesAfter.1 ∧ 0 ≤ ev.reservesAfter.2

/-- Upserting a pool state with non-negative reserves preserves the
pool-reserve invariant. -/
theorem upsertPool_inv (p : Nat) (st : LiquidityPoolState) (m : PoolMap)
    (h1 : 0 ≤ st.reserve1) (h2 : 0 ≤ st.reserve2) :
    poolInv m → poolInv (upsertPool p st m) := by
  induction m with
  | nil =>
    intro _ pr hpr
    simp only [upsertPool, List.mem_singleton] at hpr
    subst hpr
    exact ⟨h1, h2⟩
  | cons hd tl ih =>
    intro hm
    obtain ⟨q, s0⟩ := hd
    have htl : poolInv tl := fun pr hpr => hm pr (List.mem_cons_of_mem _ hpr)
    intro pr hpr
    simp only [upsertPool] at hpr
    split at hpr
    · rcases List.mem_cons.mp hpr with h | h
      · subst h; exact ⟨h1, h2⟩
      · exact htl pr h
    · rcases List.mem_cons.mp hpr with h | h
      · subst h; exact hm (q, s0) (List.mem_cons_self _ _)
      · exact ih htl pr h

/-- A successful pool lookup returns a state with non-negative reserves
whenever the invariant holds. -/
theorem lookupPool_inv (p : Nat) (m : PoolMap) (st : LiquidityPoolState)
    (hm : poolInv m) (hl : lookupPool p m = some st) :
    0 ≤ st.reserve1 ∧ 0 ≤ st.reserve2 := by
  unfold lookupPool at hl
  cases hfind : m.find? (fun q => q.1 == p) with
  | none => rw [hfind] at hl; simp at hl
  | some pr =>
    rw [hfind] at hl
    simp only [Option.map_some'] at hl
    have hmem := hm pr (List.mem_of_find?_eq_some hfind)
    obtain rfl : pr.2 = st := Option.some.inj hl
    exact hmem

/-- Every accepted pool transition preserves the reserve invariant and
emits only events with non-negative reserves. -/
theorem pool_observe_ok_inv (e : OperationEffect) (m : PoolMap)
    (evs : List PoolEvent) (m1 : PoolMap) (hm : poolInv m)
    (hok : LiquidityPoolAnalyzer.observe e m = Except.ok (evs, m1)) :
    poolInv m1 ∧ ∀ ev ∈ evs, poolEventOk ev := by
  cases e with
  | contractInvoke c inv summ =>
    simp only [LiquidityPoolAnalyzer.observe, Except.ok.injEq,
      Prod.mk.injEq] at hok
    obtain ⟨hevs, hm1⟩ := hok
    subst hevs; subst hm1
    exact ⟨hm, by simp⟩
  | poolOp p kind r1 r2 dsh =>
    by_cases hneg : r1 < 0 ∨ r2 < 0
    · simp [LiquidityPoolAnalyzer.observe, hneg] at hok
    · have hr1 : 0 ≤ r1 := le_of_not_lt fun h => hneg (Or.inl h)
      have hr2 : 0 ≤ r2 := le_of_not_lt fun h => hneg (Or.inr h)
      cases hl : lookupPool p m with
      | some st =>
        have hobs : LiquidityPoolAnalyzer.observe
            (OperationEffect.poolOp p kind r1 r2 dsh) m =
            Except.ok
              ([⟨p, kind, (st.reserve1, st.reserve2), (r1, r2), dsh⟩],
               upsertPool p ⟨r1, r2, st.shares + dsh⟩ m) := by
          simp [LiquidityPoolAnalyzer.observe, hl, if_neg hneg]
        rw [hobs] at hok
        injection hok with hok2
        injection hok2 with hevs hm1
        subst hevs; subst hm1
        have hst := lookupPool_inv p m st hm hl
        refine ⟨upsertPool_inv p ⟨r1, r2, st.shares + dsh⟩ m hr1 hr2 hm, ?_⟩
        intro ev hev
        simp only [List.mem_singleton] at hev
        subst hev
        exact ⟨hst.1, hst.2, hr1, hr2⟩
      | none =>
        cases kind with
        | deposit =>
          have hobs : LiquidityPoolAnalyzer.observe
              (OperationEffect.poolOp p PoolOpKind.deposit r1 r2 dsh) m =
              Except.ok
                ([⟨p, PoolOpKind.deposit, (0, 0), (r1, r2), dsh⟩],
                 upsertPool p ⟨r1, r2, dsh⟩ m) := by
            simp [LiquidityPoolAnalyzer.observe, hl, if_neg hneg]
          rw [hobs] at hok
          injection hok with hok2
          injection hok2 with hevs hm1
          subst hevs; subst hm1
          refine ⟨upsertPool_inv p ⟨r1, r2, dsh⟩ m hr1 hr2 hm, ?_⟩
          intro ev hev
          simp only [List.mem_singleton] at hev
          subst hev
          exact ⟨le_refl 0, le_refl 0, hr1, hr2⟩
        | withdraw =>
          simp [LiquidityPoolAnalyzer.observe, hl, if_neg hneg] at hok
        | swap =>
          simp [LiquidityPoolAnalyzer.observe, hl, if_neg hneg] at hok

/-- One all-or-nothing analyzer step preserves the reserve invariant. -/
theorem pool_observeKeep_inv (e : OperationEffect) (m : PoolMap)
    (hm : poolInv m) :
    poolInv (LiquidityPoolAnalyzer.observeKeep e m).1 ∧
    ∀ ev ∈ (LiquidityPoolAnalyzer.observeKeep e m).2, poolEventOk ev := by
  unfold LiquidityPoolAnalyzer.observeKeep
  cases hobs : LiquidityPoolAnalyzer.observe e m with
  | ok pr =>
    obtain ⟨evs, m1⟩ := pr
    simpa using pool_observe_ok_inv e m evs m1 hm hobs
  | error err =>
    refine ⟨by simpa using hm, ?_⟩
    intro ev hev
    simp at hev

/-- Running the analyzer over any effect list preserves the reserve
invariant and emits only events with non-negative reserves. -/
theorem pool_observeRun_inv (es : List OperationEffect) (m : PoolMap)
    (hm : poolInv m) :
    poolInv (LiquidityPoolAnalyzer.observeRun es m).1 ∧
    ∀ ev ∈ (LiquidityPoolAnalyzer.observeRun es m).2, poolEventOk ev := by
  induction es generalizing m with
  | nil =>
    exact ⟨by simpa [LiquidityPoolAnalyzer.observeRun] using hm,
      by simp [LiquidityPoolAnalyzer.observeRun]⟩
  | cons e rest ih =>
    have hstep := pool_observeKeep_inv e m hm
    have hrest := ih (LiquidityPoolAnalyzer.observeKeep e m).1 hstep.1
    simp only [LiquidityPoolAnalyzer.observeRun]
    refine ⟨hrest.1, ?_⟩
    intro ev hev
    rcases List.mem_append.mp hev with h | h
    · exact hstep.2 ev h
    · exact hrest.2 ev h

/-- C2: for every sequence of deposit/withdraw/swap effects the analyzer
processes from its initial state, every pool's two reserve amounts are
non-negative in every observable state (every prefix of the run) and in
every emitted pool event, and a rejected effect changes nothing: no
transition is applied partially. -/
theorem pool_reserves_never_negative :
    (∀ (es : List OperationEffect) (K : Nat),
      poolInv (LiquidityPoolAnalyzer.observeRun (es.take K) []).1 ∧
      ∀ ev ∈ (LiquidityPoolAnalyzer.observeRun (es.take K) []).2,
        poolEventOk ev) ∧
    (∀ (e : OperationEffect) (m : PoolMap) (err : CoreError),
      LiquidityPoolAnalyzer.observe e m = Except.error err →
      LiquidityPoolAnalyzer.observeKeep e m = (m, [])) := by
  constructor
  · intro es K
    exact pool_observeRun_inv (es.take K) [] (by intro pr hpr; simp at hpr)
  · intro e m err herr
    simp [LiquidityPoolAnalyzer.observeKeep, herr]

/-- Concrete instance of the C2 theorem: one accepted deposit followed by a
rejected negative-reserve withdraw leaves the state untouched by the
rejected step. -/
theorem pool_reserves_never_negative_witness :
    (poolInv (LiquidityPoolAnalyzer.observeRun
        ([OperationEffect.poolOp 1 PoolOpKind.deposit 5 5 1].take 1) []).1 ∧
      ∀ ev ∈ (LiquidityPoolAnalyzer.observeRun
        ([OperationEffect.poolOp 1 PoolOpKind.deposit 5 5 1].take 1) []).2,
        poolEventOk ev) ∧
    LiquidityPoolAnalyzer.observeKeep
        (OperationEffect.poolOp 1 PoolOpKind.withdraw (-1) 5 0)
        [(1, ⟨5, 5, 1⟩)] = ([(1, ⟨5, 5, 1⟩)], []) :=
  ⟨pool_reserves_never_negative.1
      [OperationEffect.poolOp 1 PoolOpKind.deposit 5 5 1] 1,
   pool_reserves_never_negative.2
      (OperationEffect.poolOp 1 PoolOpKind.withdraw (-1) 5 0)
      [(1, ⟨5, 5, 1⟩)] CoreError.invalidPoolTransition (by rfl)⟩

/-- A record in one of the two reachable resolution states. -/
def fbRecOk (r : FeeBumpRecord) : Prop :=
  r.state = ResolutionState.applied ∨ r.state = ResolutionState.superseded

/-- Counting a concatenation of record lists adds the counts. -/
theorem appliedCount_append (i : Nat) (l1 l2 : FeeBumpState) :
    appliedCount i (l1 ++ l2) = appliedCount i l1 + appliedCount i l2 := by
  simp [appliedCount, List.filter_append]

/-- When no record matches the applied predicate the count is zero. -/
theorem appliedCount_zero_of_none (i : Nat) (recs : FeeBumpState)
    (h : ∀ r ∈ recs, isAppliedFor i r = false) : appliedCount i recs = 0 := by
  induction recs with
  | nil => rfl
  | cons r rest ih =>
    have hr := h r (List.mem_cons_self _ _)
    have hrest := fun r hm => h r (List.mem_cons_of_mem _ hm)
    simp only [appliedCount, List.filter_cons, hr] at ih ⊢
    simp only [Bool.false_eq_true, if_false]
    exact ih hrest

/-- Superseding for an inner id leaves no record applied for that id. -/
theorem isAppliedFor_supersede_self (i : Nat) (r : FeeBumpRecord) :
    isAppliedFor i (supersedeRecord i r) = false := by
  by_cases h : isAppliedFor i r = true
  · have hc : r.inner = i ∧ r.state = ResolutionState.applied := by
      simpa [isAppliedFor] using h
    simp [supersedeRecord, isAppliedFor, hc.1, hc.2]
  · simp only [supersedeRecord, h, if_false]
    simpa using h

/-- Superseding for one inner id does not change whether a record is
applied for a different inner id. -/
theorem isAppliedFor_supersede_other (i i0 : Nat) (hne : i ≠ i0)
    (r : FeeBumpRecord) :
    isAppliedFor i (supersedeRecord i0 r) = isAppliedFor i r := by
  by_cases h : isAppliedFor i0 r = true
  · have hc : r.inner = i0 ∧ r.state = ResolutionState.applied := by
      simpa [isAppliedFor] using h
    simp [supersedeRecord, isAppliedFor, hc.1, hc.2, Ne.symm hne]
  · simp [supersedeRecord, h]

/-- After superseding every applied record for an inner id, the applied
count for that id is zero. -/
theorem appliedCount_map_supersede_self (i : Nat) (recs : FeeBumpState) :
    appliedCount i (recs.map (supersedeRecord i)) = 0 := by
  apply appliedCount_zero_of_none
  intro r hr
  rcases List.mem_map.mp hr with ⟨r0, _, hr0⟩
  rw [← hr0]
  exact isAppliedFor_supersede_self i r0

/-- Superseding for one inner id preserves applied counts for every other
inner id. -/
theorem appliedCount_map_supersede_other (i i0 : Nat) (hne : i ≠ i0)
    (recs : FeeBumpState) :
    appliedCount i (recs.map (supersedeRecord i0)) = appliedCount i recs := by
  induction recs with
  | nil => rfl
  | cons r rest ih =>
    simp only [List.map_cons, appliedCount, List.filter_cons,
      isAppliedFor_supersede_other i i0 hne] at ih ⊢
    by_cases hr : isAppliedFor i r = true
    · simp only [hr, if_true, List.length_cons]
      exact congrArg (· + 1) ih
    · simp only [hr, if_false]
      exact ih

/-- Superseding preserves the reachable-state property of a record. -/
theorem fbRecOk_supersede (i0 : Nat) (r : FeeBumpRecord) (h : fbRecOk r) :
    fbRecOk (supersedeRecord i0 r) := by
  unfold supersedeRecord
  split
  · exact Or.inr rfl
  · exact h

/-- A single tracker step preserves the at-most-one-applied invariant and
the reachable-state property. -/
theorem feeBump_observe_inv (t : Transaction) (recs : FeeBumpState)
    (h1 : ∀ i, appliedCount i recs ≤ 1) (h2 : ∀ r ∈ recs, fbRecOk r) :
    (∀ i, appliedCount i (FeeBumpTracker.observe t recs).2 ≤ 1) ∧
    (∀ r ∈ (FeeBumpTracker.observe t recs).2, fbRecOk r) := by
  cases hb : t.bumpInner with
  | none =>
    simp only [FeeBumpTracker.observe, hb]
    exact ⟨h1, h2⟩
  | some i0 =>
    cases hf : findApplied i0 recs with
    | none =>
      have hzero : appliedCount i0 recs = 0 := by
        apply appliedCount_zero_of_none
        intro r hr
        have hfail := List.find?_eq_none.mp hf r hr
        simpa using hfail
      constructor
      · intro i
        simp only [FeeBumpTracker.observe, hb, hf]
        rw [appliedCount_append]
        by_cases hi : i = i0
        · subst hi
          rw [hzero]
          simp [appliedCount, List.filter_cons, isAppliedFor]
        · have hone : appliedCount i
              [(⟨t.id, i0, t.fee, ResolutionState.applied⟩ : FeeBumpRecord)] =
              0 := by
            simp [appliedCount, List.filter_cons, isAppliedFor, Ne.symm hi]
          rw [hone]
          simpa using h1 i
      · intro r hr
        simp only [FeeBumpTracker.observe, hb, hf] at hr
        rcases List.mem_append.mp hr with h | h
        · exact h2 r h
        · simp only [List.mem_singleton] at h
          subst h
          exact Or.inl rfl
    | some r0 =>
      by_cases hlt : r0.fee < t.fee
      · constructor
        · intro i
          simp only [FeeBumpTracker.observe, hb, hf, if_pos hlt]
          rw [appliedCount_append]
          by_cases hi : i = i0
          · subst hi
            rw [appliedCount_map_supersede_self]
            simp [appliedCount, List.filter_cons, isAppliedFor]
          · rw [appliedCount_map_supersede_other i i0 hi]
            have hone : appliedCount i
                [(⟨t.id, i0, t.fee, ResolutionState.applied⟩ : FeeBumpRecord)] =
                0 := by
              simp [appliedCount, List.filter_cons, isAppliedFor, Ne.symm hi]
            rw [hone]
            simpa using h1 i
        · intro r hr
          simp only [FeeBumpTracker.observe, hb, hf, if_pos hlt] at hr
          rcases List.mem_append.mp hr with h | h
          · rcases List.mem_map.mp h with ⟨r1, hr1, hmap⟩
            rw [← hmap]
            exact fbRecOk_supersede i0 r1 (h2 r1 hr1)
          · simp only [List.mem_singleton] at h
            subst h
            exact Or.inl rfl
      · simp only [FeeBumpTracker.observe, hb, hf, if_neg hlt]
        exact ⟨h1, h2⟩

/-- Observing any transaction list preserves the at-most-one-applied
invariant and the reachable-state property. -/
theorem feeBump_observeList_inv (ts : List Transaction)
    (recs : FeeBumpState) (h1 : ∀ i, appliedCount i recs ≤ 1)
    (h2 : ∀ r ∈ recs, fbRecOk r) :
    (∀ i, appliedCount i (FeeBumpTracker.observeList ts recs).2 ≤ 1) ∧
    (∀ r ∈ (FeeBumpTracker.observeList ts recs).2, fbRecOk r) := by
  induction ts generalizing recs with
  | nil =>
    simp only [FeeBumpTracker.observeList]
    exact ⟨h1, h2⟩
  | cons t rest ih =>
    have hstep := feeBump_observe_inv t recs h1 h2
    have hrest := ih (FeeBumpTracker.observe t recs).2 hstep.1 hstep.2
    simpa only [FeeBumpTracker.observeList] using hrest

/-- C3: after the tracker has observed any prefix of the transaction
stream from its empty initial state, at most one record per inner id is in
state applied, and every record is either applied or superseded. -/
theorem feeBump_at_most_one_applied (ts : List Transaction) (K i : Nat) :
    appliedCount i (FeeBumpTracker.observeList (ts.take K) []).2 ≤ 1 ∧
    ∀ r ∈ (FeeBumpTracker.observeList (ts.take K) []).2, fbRecOk r := by
  have hall := feeBump_observeList_inv (ts.take K) []
    (fun i => by simp [appliedCount]) (by simp)
  exact ⟨hall.1 i, hall.2⟩

/-- Concrete instance of the C3 theorem: one bump observed from empty. -/
theorem feeBump_at_most_one_applied_witness :
    appliedCount 2 (FeeBumpTracker.observeList
        (([⟨6, 20, some 2, []⟩] : List Transaction).take 1) []).2 ≤ 1 ∧
    ∀ r ∈ (FeeBumpTracker.observeList
        (([⟨6, 20, some 2, []⟩] : List Transaction).take 1) []).2,
      fbRecOk r :=
  feeBump_at_most_one_applied [⟨6, 20, some 2, []⟩] 1 2

/-- The optional minimum is associative. -/
theorem omin_assoc (a b c : Option Int) :
    omin (omin a b) c = omin a (omin b c) := by
  cases a <;> cases b <;> cases c <;> simp [omin, min_assoc]

/-- The optional minimum is commutative. -/
theorem omin_comm (a b : Option Int) : omin a b = omin b a := by
  cases a <;> cases b <;> simp [omin, min_comm]

/-- The optional maximum is associative. -/
theorem omax_assoc (a b c : Option Int) :
    omax (omax a b) c = omax a (omax b c) := by
  cases a <;> cases b <;> cases c <;> simp [omax, max_assoc]

/-- The optional maximum is commutative. -/
theorem omax_comm (a b : Option Int) : omax a b = omax b a := by
  cases a <;> cases b <;> simp [omax, max_comm]

/-- Metric merging is associative. -/
theorem mergeMetrics_assoc (a b c : Metrics) :
    mergeMetrics (mergeMetrics a b) c = mergeMetrics a (mergeMetrics b c) := by
  simp only [mergeMetrics, Metrics.mk.injEq]
  refine ⟨?_, ?_, ?_, ?_, ?_, ?_, ?_, ?_⟩
  any_goals omega
  · exact omin_assoc _ _ _
  · exact omax_assoc _ _ _

/-- Metric merging is commutative. -/
theorem mergeMetrics_comm (a b : Metrics) :
    mergeMetrics a b = mergeMetrics b a := by
  simp only [mergeMetrics, Metrics.mk.injEq]
  refine ⟨?_, ?_, ?_, ?_, ?_, ?_, ?_, ?_⟩
  any_goals omega
  · exact omin_comm _ _
  · exact omax_comm _ _

/-- Folding one event into a metric set is merging in that event's
singleton metrics. -/
theorem foldEvent_eq_merge (m : Metrics) (e : AggEvent) :
    foldEvent m e = mergeMetrics m (foldEvent emptyMetrics e) := by
  obtain ⟨key, kind, amount⟩ := e
  cases kind <;>
    simp [foldEvent, bumpKindCount, mergeMetrics, emptyMetrics, omin, omax]

/-- Adjacent per-bucket folds commute. -/
theorem foldEvent_comm (m : Metrics) (e1 e2 : AggEvent) :
    foldEvent (foldEvent m e1) e2 = foldEvent (foldEvent m e2) e1 := by
  rw [foldEvent_eq_merge (foldEvent m e1) e2, foldEvent_eq_merge m e1,
    foldEvent_eq_merge (foldEvent m e2) e1, foldEvent_eq_merge m e2,
    mergeMetrics_assoc, mergeMetrics_assoc,
    mergeMetrics_comm (foldEvent emptyMetrics e1) (foldEvent emptyMetrics e2)]

/-- Folding a split event range is folding the suffix after the result of
the prefix. -/
theorem foldEventList_append (l1 l2 : List AggEvent) (m : Metrics) :
    foldEventList (l1 ++ l2) m = foldEventList l2 (foldEventList l1 m) := by
  simp [foldEventList, List.foldl_append]

/-- C9: the per-bucket fold is associative and commutative (the metric set
holds only counts, sums, min and max): merging bucket metrics is an
associative commutative operation, one fold step is a merge of the event's
singleton metrics, adjacent folds commute, and folding a range split into
any two parts from a fresh (empty) bucket equals folding the whole range
once — so re-applying the same ledger range to a fresh rollup always
yields the value of applying it once. -/
theorem aggregation_fold_assoc_comm :
    (∀ a b c : Metrics,
      mergeMetrics (mergeMetrics a b) c = mergeMetrics a (mergeMetrics b c)) ∧
    (∀ a b : Metrics, mergeMetrics a b = mergeMetrics b a) ∧
    (∀ (m : Metrics) (e : AggEvent),
      foldEvent m e = mergeMetrics m (foldEvent emptyMetrics e)) ∧
    (∀ (m : Metrics) (e1 e2 : AggEvent),
      foldEvent (foldEvent m e1) e2 = foldEvent (foldEvent m e2) e1) ∧
    (∀ l1 l2 : List AggEvent,
      foldEventList (l1 ++ l2) emptyMetrics =
        foldEventList l2 (foldEventList l1 emptyMetrics)) :=
  ⟨mergeMetrics_assoc, mergeMetrics_comm, foldEvent_eq_merge,
   foldEvent_comm, fun l1 l2 => foldEventList_append l1 l2 emptyMetrics⟩

/-- Restoring a captured image reproduces the captured state exactly. -/
theorem restore_capture (s : CoreState) :
    Snapshot.restore (Snapshot.capture s) = s := rfl

/-- Processing a split closure sequence is processing the suffix from the
result of the prefix. -/
theorem processSeq_append (l1 l2 : List LedgerClosure) (s : CoreState) :
    processSeq (l1 ++ l2) s = (processSeq l1 s).bind (processSeq l2) := by
  induction l1 generalizing s with
  | nil => simp [processSeq, Except.bind]
  | cons c rest ih =>
    simp only [List.cons_append, processSeq]
    cases process c s with
    | ok s1 => simp [Except.bind, ih]
    | error e => simp [Except.bind]

/-- C1: for every closure sequence whose uninterrupted run from the empty
core succeeds, and every cut point K, capturing a snapshot after closures
1..K, restoring it into a fresh instance and processing closures K+1..N
reaches exactly the uninterrupted run's final state — in particular its
Indexing and Aggregation (rollup) state. -/
theorem snapshot_replay_equiv (cs : List LedgerClosure) (K : Nat)
    (width startSeq : Nat) (sK sN : CoreState) (_hK : K < cs.length)
    (h1 : processSeq (cs.take K) (emptyCore width startSeq) = Except.ok sK)
    (h2 : processSeq cs (emptyCore width startSeq) = Except.ok sN) :
    processSeq (cs.drop K) (Snapshot.restore (Snapshot.capture sK)) =
      Except.ok sN ∧
    ∃ s1,
      processSeq (cs.drop K) (Snapshot.restore (Snapshot.capture sK)) =
        Except.ok s1 ∧
      s1.indexing = sN.indexing ∧ s1.rollups = sN.rollups := by
  have happ := processSeq_append (cs.take K) (cs.drop K)
    (emptyCore width startSeq)
  rw [List.take_append_drop, h2, h1] at happ
  have hmain : processSeq (cs.drop K) sK = Except.ok sN := by
    simpa [Except.bind] using happ.symm
  rw [restore_capture]
  exact ⟨hmain, sN, hmain, rfl, rfl⟩

/-- A first demo closure: a pool deposit and an entry change. -/
def demoClosure1 : LedgerClosure :=
  ⟨1, 100,
   [⟨1, 5, none, [OperationEffect.poolOp 7 PoolOpKind.deposit 10 10 4]⟩],
   [⟨EntityKey.pool 7, 3⟩]⟩

/-- A second demo closure: a pool swap and a fee bump. -/
def demoClosure2 : LedgerClosure :=
  ⟨2, 4000,
   [⟨2, 8, some 9, [OperationEffect.poolOp 7 PoolOpKind.swap 12 9 0]⟩],
   []⟩

/-- The state after the first demo closure. -/
def demoK : CoreState :=
  exceptGet (emptyCore 3600 0) (processSeq [demoClosure1] (emptyCore 3600 0))

/-- The state after both demo closures. -/
def demoN : CoreState :=
  exceptGet (emptyCore 3600 0)
    (processSeq [demoClosure1, demoClosure2] (emptyCore 3600 0))

/-- Concrete instance of the C1 theorem: snapshot after closure 1 of 2,
restore, replay closure 2. -/
theorem snapshot_replay_equiv_witness :
    processSeq ([demoClosure1, demoClosure2].drop 1)
        (Snapshot.restore (Snapshot.capture demoK)) = Except.ok demoN ∧
    ∃ s1,
      processSeq ([demoClosure1, demoClosure2].drop 1)
          (Snapshot.restore (Snapshot.capture demoK)) = Except.ok s1 ∧
      s1.indexing = demoN.indexing ∧ s1.rollups = demoN.rollups :=
  snapshot_replay_equiv [demoClosure1, demoClosure2] 1 3600 0 demoK demoN
    (by decide) (by rfl) (by rfl)

/-- Closure 99: the deposit that establishes pool 1 at reserves
(1000, 1000), in hour bucket 0. -/
def closureSeed : LedgerClosure :=
  ⟨99, 0,
   [⟨90, 2, none,
     [OperationEffect.poolOp 1 PoolOpKind.deposit 1000 1000 1000]⟩],
   []⟩

/-- Closure 100: a deposit into pool 1 taking reserves from (1000, 1000)
to (1100, 1091), in hour bucket 1. -/
def closure100 : LedgerClosure :=
  ⟨100, 3600,
   [⟨91, 2, none,
     [OperationEffect.poolOp 1 PoolOpKind.deposit 1100 1091 100]⟩],
   []⟩

/-- Closure 101: a withdraw taking pool 1's reserves back to
(1000, 1000), in hour bucket 1. -/
def closure101 : LedgerClosure :=
  ⟨101, 3700,
   [⟨92, 2, none,
     [OperationEffect.poolOp 1 PoolOpKind.withdraw 1000 1000 (-100)]⟩],
   []⟩

/-- The run of the spec's worked example. -/
def exampleRun : Except CoreError CoreState :=
  processSeq [closureSeed, closure100, closure101] (emptyCore 3600 98)

/-- The final state of the spec's worked example. -/
def exampleState : CoreState := exceptGet (emptyCore 3600 98) exampleRun

/-- C10: after processing closures 100 and 101 (pool 1 established at
(1000, 1000) by the preceding deposit), the pool lookup reports reserves
(1000, 1000) and the hourly rollup for pool 1 records exactly one deposit
and one withdraw event. -/
theorem example_pool_rollup :
    exampleRun = Except.ok exampleState ∧
    lookupPool 1 exampleState.pools = some ⟨1000, 1000, 1000⟩ ∧
    ∃ mtr,
      Aggregation.read (EntityKey.pool 1) 1 exampleState.rollups =
        some mtr ∧
      mtr.depositCount = 1 ∧ mtr.withdrawCount = 1 ∧ mtr.swapCount = 0 :=
  ⟨rfl, rfl, ⟨1, 1, 0, 0, 0, 0, some (-100), some 100⟩, by decide, rfl,
   rfl, rfl⟩

end StellarInsights
